import Mathlib

set_option autoImplicit false

namespace ScraperAgents

/-!
Shallow embedding of the scraper-agents repository, centred on
src/shopify_api_agent.py: the flattener (flatten_data), the pagination loop
(fetch_products), the connectivity probe (connect), the CSV sink
(save_to_csv), the MongoDB sink (store_product_in_mongodb together with the
indexes created in connect_to_mongodb), and the pipeline step extract_data.
JSON values are modelled by the inductive JVal; Python None is jnull; Python
exceptions raised by an operation are modelled by Except Unit.
-/

/-- JSON-like values as delivered by the storefront endpoint and handled by
the Python code.  Objects are association lists; lookup takes the first
binding, matching dict semantics (a real dict cannot hold a duplicate key). -/
inductive JVal : Type where
  | jnull : JVal
  | jbool : Bool → JVal
  | jnum : Int → JVal
  | jstr : String → JVal
  | jarr : List JVal → JVal
  | jobj : List (String × JVal) → JVal

/-- Python truthiness of a JSON value. -/
def truthy : JVal → Bool
  | JVal.jnull => false
  | JVal.jbool b => b
  | JVal.jnum n => n != 0
  | JVal.jstr s => s != ""
  | JVal.jarr xs => !xs.isEmpty
  | JVal.jobj fs => !fs.isEmpty

/-- dict.get k on the field list of an object: the value at k, or None
(jnull) when the key is absent. -/
def oget (fs : List (String × JVal)) (k : String) : JVal :=
  match fs.find? (fun kv => kv.1 == k) with
  | some kv => kv.2
  | none => JVal.jnull

/-- dict.get k d on the field list of an object: the value at k, or the
default d when the key is absent. -/
def ogetD (fs : List (String × JVal)) (k : String) (d : JVal) : JVal :=
  match fs.find? (fun kv => kv.1 == k) with
  | some kv => kv.2
  | none => d

/-- Python iteration over a value: a list yields its elements, a string its
one-character substrings, a dict its keys; anything else raises TypeError. -/
def pyIter : JVal → Except Unit (List JVal)
  | JVal.jarr xs => Except.ok xs
  | JVal.jstr s => Except.ok (s.toList.map (fun c => JVal.jstr (String.mk [c])))
  | JVal.jobj fs => Except.ok (fs.map (fun kv => JVal.jstr kv.1))
  | _ => Except.error ()

/-- v.get k in Python: only a dict has the get method; any other receiver
raises AttributeError. -/
def jget (v : JVal) (k : String) : Except Unit JVal :=
  match v with
  | JVal.jobj fs => Except.ok (oget fs k)
  | _ => Except.error ()

/-- str.join accepts only string elements; anything else raises TypeError. -/
def asStr : JVal → Except Unit String
  | JVal.jstr s => Except.ok s
  | _ => Except.error ()

/-- The element type check of str.join over a list of values. -/
def asStrAll : List JVal → Except Unit (List String)
  | [] => Except.ok []
  | v :: vs =>
    match asStr v, asStrAll vs with
    | Except.ok s, Except.ok rest => Except.ok (s :: rest)
    | _, _ => Except.error ()

/-- sep.join(v) in Python: iterate v and join its elements, which must all be
strings. -/
def pyJoin (sep : String) (v : JVal) : Except Unit String :=
  match pyIter v with
  | Except.error e => Except.error e
  | Except.ok elems =>
    match asStrAll elems with
    | Except.error e => Except.error e
    | Except.ok strs => Except.ok (String.intercalate sep strs)

/-- Line 328 of shopify_api_agent.py: first_image_src is evaluated only when
product.get('images') is truthy, as images[0].get('src'); a truthy non-list
value (or a first element without the get method) raises and the product is
skipped. -/
def firstImageSrc (fs : List (String × JVal)) : Except Unit JVal :=
  if truthy (oget fs "images") then
    match ogetD fs "images" (JVal.jarr [JVal.jobj []]) with
    | JVal.jarr (x :: _) => jget x "src"
    | _ => Except.error ()
  else Except.ok JVal.jnull

/-- The list comprehension of line 329: for each image evaluate img.get('src')
(AttributeError when img is not a dict) and keep the source when truthy. -/
def collectSrcs : List JVal → Except Unit (List JVal)
  | [] => Except.ok []
  | img :: rest =>
    match jget img "src", collectSrcs rest with
    | Except.ok s, Except.ok tail =>
        if truthy s then Except.ok (s :: tail) else Except.ok tail
    | _, _ => Except.error ()

/-- Line 329 of shopify_api_agent.py: all_image_srcs, the pipe-joined truthy
image sources in original order. -/
def allImageSrcs (fs : List (String × JVal)) : Except Unit String :=
  match pyIter (ogetD fs "images" (JVal.jarr [])) with
  | Except.error e => Except.error e
  | Except.ok elems =>
    match collectSrcs elems with
    | Except.error e => Except.error e
    | Except.ok srcs =>
      match asStrAll srcs with
      | Except.error e => Except.error e
      | Except.ok strs => Except.ok (String.intercalate "|" strs)

/-- One flattened CSV row: the dict built in flatten_data (lines 332-354 and
358-380).  Python None is modelled as jnull. -/
structure Row : Type where
  store_domain : String
  product_id : JVal
  title : JVal
  handle : JVal
  vendor : JVal
  product_type : JVal
  created_at : JVal
  updated_at : JVal
  published_at : JVal
  tags : String
  body_html : JVal
  variant_id : JVal
  variant_title : JVal
  sku : JVal
  price : JVal
  compare_at_price : JVal
  available : JVal
  variant_created_at : JVal
  variant_updated_at : JVal
  image_src : JVal
  all_image_srcs : String

/-- The row built for a product without truthy variants (lines 332-354). -/
def mkBaseRow (sd : String) (fs : List (String × JVal)) (fis : JVal)
    (ais tg : String) : Row :=
  { store_domain := sd
    product_id := oget fs "id"
    title := ogetD fs "title" (JVal.jstr "")
    handle := ogetD fs "handle" (JVal.jstr "")
    vendor := ogetD fs "vendor" (JVal.jstr "")
    product_type := ogetD fs "product_type" (JVal.jstr "")
    created_at := ogetD fs "created_at" (JVal.jstr "")
    updated_at := ogetD fs "updated_at" (JVal.jstr "")
    published_at := ogetD fs "published_at" (JVal.jstr "")
    tags := tg
    body_html := ogetD fs "body_html" (JVal.jstr "")
    variant_id := JVal.jnull
    variant_title := JVal.jnull
    sku := JVal.jnull
    price := JVal.jnull
    compare_at_price := JVal.jnull
    available := JVal.jnull
    variant_created_at := JVal.jnull
    variant_updated_at := JVal.jnull
    image_src := fis
    all_image_srcs := ais }

/-- The row built for one variant dict (lines 358-380). -/
def mkVariantRowOf (sd : String) (fs : List (String × JVal)) (fis : JVal)
    (ais tg : String) (vf : List (String × JVal)) : Row :=
  { store_domain := sd
    product_id := oget fs "id"
    title := ogetD fs "title" (JVal.jstr "")
    handle := ogetD fs "handle" (JVal.jstr "")
    vendor := ogetD fs "vendor" (JVal.jstr "")
    product_type := ogetD fs "product_type" (JVal.jstr "")
    created_at := ogetD fs "created_at" (JVal.jstr "")
    updated_at := ogetD fs "updated_at" (JVal.jstr "")
    published_at := ogetD fs "published_at" (JVal.jstr "")
    tags := tg
    body_html := ogetD fs "body_html" (JVal.jstr "")
    variant_id := oget vf "id"
    variant_title := ogetD vf "title" (JVal.jstr "")
    sku := ogetD vf "sku" (JVal.jstr "")
    price := ogetD vf "price" (JVal.jstr "")
    compare_at_price := ogetD vf "compare_at_price" (JVal.jstr "")
    available := ogetD vf "available" (JVal.jbool false)
    variant_created_at := ogetD vf "created_at" (JVal.jstr "")
    variant_updated_at := ogetD vf "updated_at" (JVal.jstr "")
    image_src := fis
    all_image_srcs := ais }

/-- Building the row of one variant: variant.get raises AttributeError unless
the variant is a dict, in which case every get succeeds. -/
def mkVariantRow (sd : String) (fs : List (String × JVal)) (fis : JVal)
    (ais tg : String) (v : JVal) : Except Unit Row :=
  match v with
  | JVal.jobj vf => Except.ok (mkVariantRowOf sd fs fis ais tg vf)
  | _ => Except.error ()

/-- The variant loop of lines 357-381.  Rows are appended one by one to
flattened_rows, so rows built before a mid-loop exception are kept; the
returned Bool records whether the loop finished without an exception. -/
def processVariants (sd : String) (fs : List (String × JVal)) (fis : JVal)
    (ais tg : String) : List JVal → List Row × Bool
  | [] => ([], true)
  | v :: vs =>
    match mkVariantRow sd fs fis ais tg v with
    | Except.ok r =>
        let rest := processVariants sd fs fis ais tg vs
        (r :: rest.1, rest.2)
    | Except.error _ => ([], false)

/-- The body of the per-product try block of flatten_data (lines 326-384):
the rows this product appends to flattened_rows, and whether it was processed
without an exception.  The tags join of the row dicts is evaluated before any
row is kept; since it is the same computation in every row, hoisting it is
observably equivalent to the source, where its failure aborts the first row. -/
def processProduct (sd : String) (p : JVal) : List Row × Bool :=
  match p with
  | JVal.jobj fs =>
    match firstImageSrc fs, allImageSrcs fs,
          pyJoin ", " (ogetD fs "tags" (JVal.jarr [])) with
    | Except.ok fis, Except.ok ais, Except.ok tg =>
      if truthy (oget fs "variants") then
        match pyIter (ogetD fs "variants" (JVal.jarr [])) with
        | Except.ok vs => processVariants sd fs fis ais tg vs
        | Except.error _ => ([], false)
      else ([mkBaseRow sd fs fis ais tg], true)
    | _, _, _ => ([], false)
  | _ => ([], false)

/-- flatten_data (lines 321-386): every product appends its rows; a product
whose processing raises is skipped (logged) and the loop continues. -/
def flatten_data (all_products_data : List JVal) (store_domain : String) :
    List Row :=
  match all_products_data with
  | [] => []
  | p :: rest => (processProduct store_domain p).1 ++ flatten_data rest store_domain

/-- What the fetch loop observes for one page request (lines 287-317).  The
three failure constructors mirror the distinct except branches and the
invalid-format branch of line 291; all four of them execute a break. -/
inductive Page : Type where
  | ok (items : List JVal)
  | badFormat
  | netErr
  | decodeErr

/-- True on the responses that make the loop break without extending the
accumulator: the two except branches for request and decode errors, the
generic except branch, and the invalid-format check of line 291. -/
def pageFails : Page → Bool
  | Page.ok _ => false
  | _ => true

/-- The while loop of fetch_products (lines 271-317).  pages n is the
response the server gives to the request for page n; fuel bounds the number
of iterations considered (each claim supplies enough fuel for the run it
describes).  The stop flag of line 272 stays False for the whole session: it
is set at construction (line 37) and nothing in the repository sets it to
True.  Returns the accumulated products and the page numbers requested, in
request order. -/
def fetchGo (pages : Nat → Page) (limit : Nat) :
    Nat → Nat → List JVal → List JVal × List Nat
  | 0, _, acc => (acc, [])
  | Nat.succ fuel, page, acc =>
    match pages page with
    | Page.ok items =>
      if items.isEmpty then (acc, [page])
      else if items.length < limit then (acc ++ items, [page])
      else
        let rest := fetchGo pages limit fuel (page + 1) (acc ++ items)
        (rest.1, page :: rest.2)
    | _ => (acc, [page])

/-- fetch_products (lines 265-319): page starts at 1, limit is 250. -/
def fetch_products (pages : Nat → Page) (fuel : Nat) : List JVal × List Nat :=
  fetchGo pages 250 fuel 1 []

/-- The items a page contributes when the loop stops on it, or none when the
loop continues past it: a failing page and an empty products array contribute
nothing, a short non-empty page is extended into the accumulator first. -/
def stopItems : Page → Option (List JVal)
  | Page.ok items =>
    if items.isEmpty then some []
    else if items.length < 250 then some items
    else none
  | _ => some []

/-- The outcome of the single probe request of connect (lines 211-248): a
request exception, or a response with its status and its body (none when the
body does not parse as JSON). -/
inductive HttpResult : Type where
  | reqErr
  | resp (status : Nat) (body : Option JVal)

/-- Python str.rstrip with the slash character. -/
def rstripSlash (s : String) : String :=
  String.mk (s.toList.reverse.dropWhile (fun c => c == '/')).reverse

/-- construct_url (lines 250-263): strip any protocol prefix and trailing
slashes, then build https://domain/products.json.  The try body consists of
string operations that cannot raise, so the none branch is dead code. -/
def construct_url (domain : String) : Option String :=
  some ("https://" ++ rstripSlash ((domain.replace "https://" "").replace "http://" "")
        ++ "/products.json")

/-- connect (lines 193-248) as a function of the store domain and of the
observed HTTP outcome.  Every exception is caught (lines 243-248), so the
probe always returns a Bool. -/
def connect (domain : String) (r : HttpResult) : Bool :=
  match construct_url domain with
  | none => false
  | some _ =>
    match r with
    | HttpResult.reqErr => false
    | HttpResult.resp status body =>
      if status != 200 then false
      else
        match body with
        | some (JVal.jobj fs) => fs.any (fun kv => kv.1 == "products")
        | _ => false

/-- One line of the CSV file: the header line or one data row. -/
inductive CsvLine : Type where
  | header (cols : List String)
  | record (r : Row)

/-- os.path.dirname: everything before the last slash, with trailing slashes
stripped unless the result is all slashes; empty when there is no slash. -/
def dirname (s : String) : String :=
  let cs := s.toList
  if cs.contains '/' then
    let head := (cs.reverse.dropWhile (fun c => c != '/')).reverse
    if head.all (fun c => c == '/') then String.mk head
    else String.mk (head.reverse.dropWhile (fun c => c == '/')).reverse
  else ""

/-- save_to_csv (lines 388-404) acting on the content of the target file
(none when the file does not exist).  When the directory part of the
filename is empty, os.makedirs raises FileNotFoundError, which the IOError
handler of line 401 catches, so nothing is written.  Otherwise the file is
opened in append mode (created empty when absent), the header is written when
the file did not exist or is empty, and the rows follow. -/
def save_to_csv (filename : String) (data : List Row) (headers : List String)
    (file : Option (List CsvLine)) : Option (List CsvLine) :=
  if dirname filename == "" then file
  else
    let cur := file.getD []
    let cur2 := if file.isNone || cur.isEmpty then cur ++ [CsvLine.header headers] else cur
    some (cur2 ++ data.map CsvLine.record)

/-- The CSV header list of extract_data (lines 447-453). -/
def csvHeaders : List String :=
  ["store_domain", "product_id", "title", "handle", "vendor",
   "product_type", "created_at", "updated_at", "published_at",
   "tags", "body_html", "variant_id", "variant_title", "sku",
   "price", "compare_at_price", "available", "variant_created_at",
   "variant_updated_at", "image_src", "all_image_srcs"]

/-- The characters after the first double slash, none when there is no
double slash. -/
def afterDoubleSlash : List Char → Option (List Char)
  | [] => none
  | [_] => none
  | c1 :: c2 :: rest =>
    if c1 == '/' && c2 == '/' then some rest
    else afterDoubleSlash (c2 :: rest)

/-- urlparse(store_url).netloc: the part after the first double slash, cut at
the first slash, question mark or hash; empty when there is no double
slash. -/
def netloc (s : String) : String :=
  match afterDoubleSlash s.toList with
  | none => ""
  | some rest =>
    String.mk (rest.takeWhile (fun c => c != '/' && c != '?' && c != '#'))

/-- extract_data (lines 429-463) as a function of the raw product list and of
the CSV file content: flatten, append to data/shopify_products.csv, and
return the raw data itself (the empty list only for empty input).  Nothing in
the try body can raise an uncaught exception, since save_to_csv swallows its
own errors, so the catch branch of line 461 is dead code. -/
def extract_data (store_url : String) (raw_data : List JVal)
    (file : Option (List CsvLine)) : List JVal × Option (List CsvLine) :=
  if raw_data.isEmpty then ([], file)
  else
    let domain := netloc store_url
    let flattened := flatten_data raw_data domain
    if flattened.isEmpty then (raw_data, file)
    else (raw_data, save_to_csv "data/shopify_products.csv" flattened csvHeaders file)

mutual

/-- Boolean equality of JSON values, used to model equality filters and
unique-index comparisons of the document store. -/
def beqJVal : JVal → JVal → Bool
  | JVal.jnull, JVal.jnull => true
  | JVal.jbool a, JVal.jbool b => a == b
  | JVal.jnum a, JVal.jnum b => a == b
  | JVal.jstr a, JVal.jstr b => a == b
  | JVal.jarr xs, JVal.jarr ys => beqJValList xs ys
  | JVal.jobj fs, JVal.jobj gs => beqJValFields fs gs
  | _, _ => false

/-- Boolean equality of JSON arrays. -/
def beqJValList : List JVal → List JVal → Bool
  | [], [] => true
  | x :: xs, y :: ys => beqJVal x y && beqJValList xs ys
  | _, _ => false

/-- Boolean equality of JSON object field lists. -/
def beqJValFields : List (String × JVal) → List (String × JVal) → Bool
  | [], [] => true
  | (k1, v1) :: xs, (k2, v2) :: ys =>
      k1 == k2 && beqJVal v1 v2 && beqJValFields xs ys
  | _, _ => false

end

/-- A stored document: its field list.  The collection is the list of its
documents in insertion order. -/
abbrev Doc : Type := List (String × JVal)

/-- The value of a field of a document, none when absent. -/
def dGet (d : Doc) (k : String) : Option JVal :=
  match d.find? (fun kv => kv.1 == k) with
  | some kv => some kv.2
  | none => none

/-- Python dict item assignment d[k] = v: replace the value in place when the
key exists, append the binding otherwise. -/
def setField : Doc → String → JVal → Doc
  | [], k, v => [(k, v)]
  | (k1, v1) :: rest, k, v =>
    if k1 == k then (k, v) :: rest else (k1, v1) :: setField rest k v

/-- The MongoDB update operator with a document argument (line 86): every
field of p is set on d, existing values are overwritten, missing fields are
added, and fields of d not named in p are kept. -/
def mergeSet (d : Doc) (p : Doc) : Doc :=
  p.foldl (fun acc kv => setField acc kv.1 kv.2) d

/-- A MongoDB equality condition on one field: the stored value equals the
target, where a filter on null also accepts a missing field. -/
def fieldEq (d : Doc) (k : String) (v : JVal) : Bool :=
  match dGet d k with
  | some w => beqJVal w v
  | none => beqJVal v JVal.jnull

/-- The upsert filter of line 85: id equals the product id and store_url
equals the agent store URL. -/
def keyMatch (d : Doc) (pid : JVal) (su : String) : Bool :=
  fieldEq d "id" pid && fieldEq d "store_url" (JVal.jstr su)

/-- The unique index created by connect_to_mongodb at line 57: it covers the
single field id.  The indexes of lines 58-60 (handle, created_at, store_url)
are not unique and do not constrain writes. -/
def uniqueIndexFields : List String := ["id"]

/-- Whether inserting p into the collection violates the unique index: some
stored document carries the same values on all indexed fields (a missing
field is indexed as null). -/
def insertConflict (coll : List Doc) (p : Doc) : Bool :=
  coll.any (fun d =>
    uniqueIndexFields.all (fun k => fieldEq d k ((dGet p k).getD JVal.jnull)))

/-- update_one touches only the first document matching the filter. -/
def updateFirst (p : Doc → Bool) (f : Doc → Doc) : List Doc → List Doc
  | [] => []
  | d :: ds => if p d then f d :: ds else d :: updateFirst p f ds

/-- Lines 80-81: the scraped_at timestamp and the store_url are written onto
the product dict before the upsert. -/
def stamped (store_url : String) (now : JVal) (product : Doc) : Doc :=
  setField (setField product "scraped_at" now) "store_url" (JVal.jstr store_url)

/-- store_product_in_mongodb (lines 76-98): stamp scraped_at and store_url on
the product, then update_one with upsert on the filter
(id = product id, store_url = agent store URL).  A missing id raises KeyError
at line 85; an upsert insert that violates the unique index on id raises
DuplicateKeyError; both are caught at line 96 and reported as False with the
collection unchanged.  Returns the new collection and the success flag. -/
def store_product_in_mongodb (coll : List Doc) (store_url : String)
    (now : JVal) (product : Doc) : List Doc × Bool :=
  let p := stamped store_url now product
  match dGet p "id" with
  | none => (coll, false)
  | some pid =>
    if coll.any (fun d => keyMatch d pid store_url) then
      (updateFirst (fun d => keyMatch d pid store_url) (fun d => mergeSet d p) coll, true)
    else if insertConflict coll p then (coll, false)
    else (coll ++ [p], true)

/-- The selection the source makes on one image dict: its src when that is a
non-empty string, nothing when it is null or empty. -/
def srcPick (f : List (String × JVal)) : Option String :=
  match oget f "src" with
  | JVal.jstr s => if s == "" then none else some s
  | _ => none

/-- The image list of the spec example: sources a, empty, b. -/
def imgsEx : List (List (String × JVal)) :=
  [[("src", JVal.jstr "a")], [("src", JVal.jstr "")], [("src", JVal.jstr "b")]]

/-- A product field list holding exactly the example images. -/
def fsImgsEx : List (String × JVal) :=
  [("images", JVal.jarr (imgsEx.map JVal.jobj))]

/-- A server whose pages 1, 2, 3 hold 250, 250 and 120 products. -/
def pagesEx : Nat → Page := fun k =>
  if k == 1 then Page.ok (List.replicate 250 (JVal.jobj []))
  else if k == 2 then Page.ok (List.replicate 250 (JVal.jobj []))
  else if k == 3 then Page.ok (List.replicate 120 (JVal.jobj []))
  else Page.netErr

/-- The full pages of pagesEx. -/
def lEx : Nat → List JVal := fun _ => List.replicate 250 (JVal.jobj [])

/-- The product-level fields every row of one product carries, exactly as the
row dicts of flatten_data read them from the product. -/
def productFieldsOk (sd : String) (fs : List (String × JVal)) (r : Row) : Prop :=
  r.store_domain = sd ∧
  r.product_id = oget fs "id" ∧
  r.title = ogetD fs "title" (JVal.jstr "") ∧
  r.handle = ogetD fs "handle" (JVal.jstr "") ∧
  r.vendor = ogetD fs "vendor" (JVal.jstr "") ∧
  r.product_type = ogetD fs "product_type" (JVal.jstr "") ∧
  r.created_at = ogetD fs "created_at" (JVal.jstr "") ∧
  r.updated_at = ogetD fs "updated_at" (JVal.jstr "") ∧
  r.published_at = ogetD fs "published_at" (JVal.jstr "") ∧
  pyJoin ", " (ogetD fs "tags" (JVal.jarr [])) = Except.ok r.tags ∧
  r.body_html = ogetD fs "body_html" (JVal.jstr "") ∧
  firstImageSrc fs = Except.ok r.image_src ∧
  allImageSrcs fs = Except.ok r.all_image_srcs

/-- The variant-level fields of a row, exactly as the row dict of
flatten_data reads them from one variant dict. -/
def variantFieldsOk (vf : List (String × JVal)) (r : Row) : Prop :=
  r.variant_id = oget vf "id" ∧
  r.variant_title = ogetD vf "title" (JVal.jstr "") ∧
  r.sku = ogetD vf "sku" (JVal.jstr "") ∧
  r.price = ogetD vf "price" (JVal.jstr "") ∧
  r.compare_at_price = ogetD vf "compare_at_price" (JVal.jstr "") ∧
  r.available = ogetD vf "available" (JVal.jbool false) ∧
  r.variant_created_at = ogetD vf "created_at" (JVal.jstr "") ∧
  r.variant_updated_at = ogetD vf "updated_at" (JVal.jstr "")

/-- All variant-specific fields of a row are None. -/
def variantFieldsAbsent (r : Row) : Prop :=
  r.variant_id = JVal.jnull ∧ r.variant_title = JVal.jnull ∧
  r.sku = JVal.jnull ∧ r.price = JVal.jnull ∧
  r.compare_at_price = JVal.jnull ∧ r.available = JVal.jnull ∧
  r.variant_created_at = JVal.jnull ∧ r.variant_updated_at = JVal.jnull

/-- A two-variant product used as a concrete witness. -/
def varsTwo : List JVal :=
  [JVal.jobj [("id", JVal.jnum 1)], JVal.jobj [("id", JVal.jnum 2)]]

/-- Field list of the two-variant witness product. -/
def prodTwoVar : List (String × JVal) :=
  [("id", JVal.jnum 7), ("title", JVal.jstr "Shirt"), ("variants", JVal.jarr varsTwo)]

/-- The rows flatten_data builds for the two-variant witness product. -/
def rowsTwoVar : List Row :=
  [mkVariantRowOf "store" prodTwoVar JVal.jnull "" "" [("id", JVal.jnum 1)],
   mkVariantRowOf "store" prodTwoVar JVal.jnull "" "" [("id", JVal.jnum 2)]]

/-- A collection already holding the product id 1 scraped from another
store. -/
def collOther : List Doc :=
  [[("id", JVal.jnum 1), ("store_url", JVal.jstr "https://other.example")]]

/-- A product record with id 1. -/
def prodX : Doc := [("id", JVal.jnum 1), ("title", JVal.jstr "x")]

/-- The same product record with a different title. -/
def prodY : Doc := [("id", JVal.jnum 1), ("title", JVal.jstr "y")]

/-- The batch of the spec example for claim C9: five products, the third
lacking an id field. -/
def badBatchC9 : List JVal :=
  [JVal.jobj [("id", JVal.jnum 1), ("title", JVal.jstr "one")],
   JVal.jobj [("id", JVal.jnum 2), ("title", JVal.jstr "two")],
   JVal.jobj [("title", JVal.jstr "three")],
   JVal.jobj [("id", JVal.jnum 4), ("title", JVal.jstr "four")],
   JVal.jobj [("id", JVal.jnum 5), ("title", JVal.jstr "five")]]

/-! Helper lemmas. -/

theorem ogetD_eq_oget (fs : List (String × JVal)) (k : String) (d : JVal)
    (h : oget fs k ≠ JVal.jnull) : ogetD fs k d = oget fs k := by
  unfold oget ogetD at *
  cases hf : fs.find? (fun kv => kv.1 == k) with
  | none => simp only [hf] at h; exact absurd rfl h
  | some kv => simp only [hf]

theorem asStrAll_jstr (l : List String) :
    asStrAll (l.map JVal.jstr) = Except.ok l := by
  induction l with
  | nil => rfl
  | cons s rest ih => simp [asStrAll, asStr, ih]

theorem collectSrcs_jobj (imgs : List (List (String × JVal)))
    (hsrc : ∀ f ∈ imgs, oget f "src" = JVal.jnull ∨ ∃ s, oget f "src" = JVal.jstr s) :
    collectSrcs (imgs.map JVal.jobj) =
      Except.ok ((imgs.filterMap srcPick).map JVal.jstr) := by
  induction imgs with
  | nil => rfl
  | cons f rest ih =>
    have hf := hsrc f (List.mem_cons_self f rest)
    have htail := ih (fun g hg => hsrc g (List.mem_cons_of_mem f hg))
    rcases hf with hnull | ⟨s, hs⟩
    · simp [collectSrcs, jget, htail, hnull, truthy, srcPick]
    · by_cases he : s = ""
      · subst he
        simp [collectSrcs, jget, htail, hs, truthy, srcPick]
      · have hbe : (s == "") = false := by simpa using he
        have hbne : (s != "") = true := by simp [bne, hbe]
        simp [collectSrcs, jget, htail, hs, truthy, srcPick, hbe, hbne, List.filterMap_cons]

/-! Claim C5: first_image_src and all_image_srcs. -/

/-- C5: for a product whose images field is an array of image dicts whose src
entries are strings or absent, firstImageSrc is the src of the first image
(None when there are no images) and allImageSrcs is the pipe-joined list of
the non-empty sources in original order, skipping missing and empty ones. -/
theorem image_fields_spec (fs : List (String × JVal))
    (imgs : List (List (String × JVal)))
    (h : oget fs "images" = JVal.jarr (imgs.map JVal.jobj))
    (hsrc : ∀ f ∈ imgs, oget f "src" = JVal.jnull ∨ ∃ s, oget f "src" = JVal.jstr s) :
    firstImageSrc fs =
      Except.ok ((imgs.head?.map (fun f => oget f "src")).getD JVal.jnull) ∧
    allImageSrcs fs =
      Except.ok (String.intercalate "|" (imgs.filterMap srcPick)) := by
  constructor
  · unfold firstImageSrc
    cases imgs with
    | nil => simp [h, truthy]
    | cons f rest =>
      have hne : oget fs "images" ≠ JVal.jnull := by rw [h]; intro he; cases he
      rw [ogetD_eq_oget fs "images" _ hne, h]
      simp [truthy, jget]
  · unfold allImageSrcs
    have hne : oget fs "images" ≠ JVal.jnull := by rw [h]; intro he; cases he
    rw [ogetD_eq_oget fs "images" _ hne, h]
    simp [pyIter, collectSrcs_jobj imgs hsrc, asStrAll_jstr]

/-- Witness for C5 at the images [{src: a}, {src: ""}, {src: b}] of the spec:
all_image_srcs is a|b and first_image_src is a. -/
theorem image_fields_spec_witness :
    oget fsImgsEx "images" = JVal.jarr (imgsEx.map JVal.jobj) ∧
    (∀ f ∈ imgsEx, oget f "src" = JVal.jnull ∨ ∃ s, oget f "src" = JVal.jstr s) ∧
    firstImageSrc fsImgsEx = Except.ok (JVal.jstr "a") ∧
    allImageSrcs fsImgsEx = Except.ok "a|b" := by
  have hsrc : ∀ f ∈ imgsEx, oget f "src" = JVal.jnull ∨ ∃ s, oget f "src" = JVal.jstr s := by
    intro f hf
    simp only [imgsEx, List.mem_cons, List.not_mem_nil, or_false] at hf
    rcases hf with rfl | rfl | rfl
    · exact Or.inr ⟨"a", rfl⟩
    · exact Or.inr ⟨"", rfl⟩
    · exact Or.inr ⟨"b", rfl⟩
  have hmain := image_fields_spec fsImgsEx imgsEx rfl hsrc
  exact ⟨rfl, hsrc, hmain.1, hmain.2⟩

/-! Claim C7: the connectivity probe. -/

/-- C7: connect succeeds exactly when the probe response has status 200 and a
body that is a JSON object containing a products key; any request exception,
parse failure, non-object body or missing key yields False (every exception
is caught, so the probe never raises). -/
theorem connect_success_iff (domain : String) (r : HttpResult) :
    connect domain r = true ↔
      ∃ fs, r = HttpResult.resp 200 (some (JVal.jobj fs)) ∧
        ∃ v, ("products", v) ∈ fs := by
  cases r with
  | reqErr => simp [connect, construct_url]
  | resp status body =>
    by_cases hs : status = 200
    · subst hs
      cases body with
      | none => simp [connect, construct_url]
      | some j =>
        cases j with
        | jobj fs =>
          simp only [connect, construct_url, bne_self_eq_false, Bool.false_eq_true,
            if_false, List.any_eq_true]
          constructor
          · rintro ⟨⟨k, v⟩, hmem, hk⟩
            simp only [beq_iff_eq] at hk
            subst hk
            exact ⟨fs, rfl, v, hmem⟩
          · rintro ⟨fs2, heq, v, hmem⟩
            cases heq
            exact ⟨("products", v), hmem, by simp⟩
        | jnull => simp [connect, construct_url]
        | jbool b => simp [connect, construct_url]
        | jnum n => simp [connect, construct_url]
        | jstr s => simp [connect, construct_url]
        | jarr xs => simp [connect, construct_url]
    · have hb : (status != 200) = true := by simpa using hs
      simp only [connect, construct_url, hb, if_true]
      constructor
      · intro h; cases h
      · rintro ⟨fs, heq, -⟩
        cases heq
        exact absurd rfl hs

/-! Claim C6: the tabular sink writes its header once. -/

/-- C6 counterexample: at a target path without a directory component the
claim fails: os.path.dirname is empty, os.makedirs of the empty string raises
FileNotFoundError, the IOError handler of line 401 swallows it, and both
calls write nothing — after two calls the file still does not exist, instead
of holding one header line plus the rows. -/
theorem csv_header_once_counterexample :
    dirname "out.csv" = "" ∧
    save_to_csv "out.csv" [] csvHeaders
      (save_to_csv "out.csv" [] csvHeaders none) = none ∧
    save_to_csv "out.csv" [] csvHeaders
        (save_to_csv "out.csv" [] csvHeaders none)
      ≠ some (CsvLine.header csvHeaders
          :: (([] ++ []) : List Row).map CsvLine.record) :=
  ⟨rfl, rfl, fun h => Option.noConfusion h⟩

/-- C6 (amended): for every target path with a non-empty directory part, two
successive save_to_csv calls on the same initially missing file write the
header exactly once; the final file is the header line followed by the rows
of both calls in order.  (At a bare filename os.makedirs raises and nothing
is written at all.) -/
theorem csv_header_once (filename : String) (headers : List String)
    (rows1 rows2 : List Row) (h : dirname filename ≠ "") :
    save_to_csv filename rows2 headers (save_to_csv filename rows1 headers none) =
      some (CsvLine.header headers :: (rows1 ++ rows2).map CsvLine.record) ∧
    ((save_to_csv filename rows2 headers
        (save_to_csv filename rows1 headers none)).getD []).countP
      (fun ln => match ln with | CsvLine.header _ => true | _ => false) = 1 ∧
    ((save_to_csv filename rows2 headers
        (save_to_csv filename rows1 headers none)).getD []).length
      = 1 + (rows1.length + rows2.length) := by
  have hb : (dirname filename == "") = false := by simpa using h
  have h1 : save_to_csv filename rows1 headers none =
      some (CsvLine.header headers :: rows1.map CsvLine.record) := by
    simp [save_to_csv, hb]
  have h2 : save_to_csv filename rows2 headers
      (some (CsvLine.header headers :: rows1.map CsvLine.record)) =
      some (CsvLine.header headers :: (rows1 ++ rows2).map CsvLine.record) := by
    simp [save_to_csv, hb]
  rw [h1, h2]
  refine ⟨rfl, ?_, ?_⟩
  · simp [List.countP_cons, List.countP_map]
  · simp [Nat.add_comm]

/-- Witness for C6 at the path the pipeline uses, with one row then two
rows. -/
theorem csv_header_once_witness :
    dirname "data/shopify_products.csv" ≠ "" ∧
    save_to_csv "data/shopify_products.csv" [] csvHeaders
        (save_to_csv "data/shopify_products.csv" [] csvHeaders none) =
      some (CsvLine.header csvHeaders :: (([] ++ []) : List Row).map CsvLine.record) := by
  have hd : dirname "data/shopify_products.csv" ≠ "" := by
    rw [show dirname "data/shopify_products.csv" = "data" from rfl]
    decide
  exact ⟨hd, (csv_header_once "data/shopify_products.csv" csvHeaders [] [] hd).1⟩

/-! Claim C10: extract_data returns the raw nested data. -/

/-- C10: on a non-empty raw list whose flattening is non-empty, extract_data
writes the flat rows to the CSV sink and returns the raw nested list itself;
on an empty raw list it returns the empty list and leaves the sink alone. -/
theorem extract_data_returns_raw (store_url : String) (raw : List JVal)
    (file : Option (List CsvLine))
    (hraw : raw ≠ []) (hfl : flatten_data raw (netloc store_url) ≠ []) :
    extract_data store_url raw file =
      (raw, save_to_csv "data/shopify_products.csv"
        (flatten_data raw (netloc store_url)) csvHeaders file) ∧
    extract_data store_url [] file = ([], file) := by
  constructor
  · have h1 : raw.isEmpty = false := by
      cases raw with
      | nil => exact absurd rfl hraw
      | cons a l => rfl
    have h2 : (flatten_data raw (netloc store_url)).isEmpty = false := by
      cases hcase : flatten_data raw (netloc store_url) with
      | nil => exact absurd hcase hfl
      | cons a l => rfl
    simp [extract_data, h1, h2]
  · rfl

/-- Witness for C10 at a one-product raw list: its flattening is one row, the
raw list comes back unchanged and the row goes to the sink. -/
theorem extract_data_returns_raw_witness :
    ([JVal.jobj []] : List JVal) ≠ [] ∧
    flatten_data [JVal.jobj []] (netloc "https://shop.example.com") ≠ [] ∧
    extract_data "https://shop.example.com" [JVal.jobj []] none =
      ([JVal.jobj []], save_to_csv "data/shopify_products.csv"
        (flatten_data [JVal.jobj []] (netloc "https://shop.example.com")) csvHeaders none) := by
  have hfl : flatten_data [JVal.jobj []] (netloc "https://shop.example.com") ≠ [] := by
    rw [show flatten_data [JVal.jobj []] (netloc "https://shop.example.com")
        = [mkBaseRow "shop.example.com" [] JVal.jnull "" ""] from rfl]
    intro he; cases he
  exact ⟨List.cons_ne_nil _ _, hfl,
    (extract_data_returns_raw "https://shop.example.com" [JVal.jobj []] none
      (List.cons_ne_nil _ _) hfl).1⟩

/-! The pagination loop: one run lemma shared by claims C2 and C8. -/

theorem fetchGo_run :
    ∀ (n : Nat) (l : Nat → List JVal) (page fuel : Nat) (acc : List JVal)
      (pages : Nat → Page) (extra : List JVal),
      (∀ i, i < n → pages (page + i) = Page.ok (l i)) →
      (∀ i, i < n → (l i).length = 250) →
      stopItems (pages (page + n)) = some extra →
      n < fuel →
      fetchGo pages 250 fuel page acc =
        (acc ++ ((List.range n).map l).flatten ++ extra,
         (List.range (n + 1)).map (fun i => page + i)) := by
  intro n
  induction n with
  | zero =>
    intro l page fuel acc pages extra hfull hlen hstop hfuel
    cases fuel with
    | zero => exact absurd hfuel (Nat.not_lt_zero 0)
    | succ f =>
      simp only [Nat.add_zero] at hstop
      unfold fetchGo
      cases hp : pages page with
      | ok items =>
        rw [hp] at hstop
        simp only [stopItems] at hstop
        by_cases hemp : items.isEmpty
        · rw [if_pos hemp] at hstop
          injection hstop with he
          subst he
          simp [hemp, List.range_succ]
        · rw [if_neg hemp] at hstop
          by_cases hshort : items.length < 250
          · rw [if_pos hshort] at hstop
            injection hstop with he
            subst he
            simp [hemp, hshort, List.range_succ]
          · rw [if_neg hshort] at hstop
            exact absurd hstop (by simp)
      | badFormat =>
        rw [hp] at hstop
        simp only [stopItems] at hstop
        injection hstop with he
        subst he
        simp [List.range_succ]
      | netErr =>
        rw [hp] at hstop
        simp only [stopItems] at hstop
        injection hstop with he
        subst he
        simp [List.range_succ]
      | decodeErr =>
        rw [hp] at hstop
        simp only [stopItems] at hstop
        injection hstop with he
        subst he
        simp [List.range_succ]
  | succ n ih =>
    intro l page fuel acc pages extra hfull hlen hstop hfuel
    cases fuel with
    | zero => exact absurd hfuel (Nat.not_lt_zero _)
    | succ f =>
      have hp0 : pages page = Page.ok (l 0) := by
        have h := hfull 0 (Nat.succ_pos n)
        simpa using h
      have hl0 : (l 0).length = 250 := hlen 0 (Nat.succ_pos n)
      have hne : (l 0).isEmpty = false := by
        cases hc : l 0 with
        | nil => rw [hc] at hl0; simp at hl0
        | cons a t => rfl
      have hns : ¬ ((l 0).length < 250) := by rw [hl0]; omega
      have hrec := ih (fun i => l (i + 1)) (page + 1) f (acc ++ l 0) pages extra
        (by
          intro i hi
          have h := hfull (i + 1) (by omega)
          rwa [show page + (i + 1) = page + 1 + i from by omega] at h)
        (by intro i hi; exact hlen (i + 1) (by omega))
        (by rwa [show page + 1 + n = page + (n + 1) from by omega])
        (by omega)
      unfold fetchGo
      rw [hp0]
      simp only [hne, hns, if_neg, if_false, Bool.false_eq_true]
      rw [hrec, Prod.mk.injEq]
      constructor
      · show acc ++ l 0 ++ ((List.range n).map fun i => l (i + 1)).flatten ++ extra
          = acc ++ ((List.range (n + 1)).map l).flatten ++ extra
        conv_rhs => rw [List.range_succ_eq_map, List.map_cons, List.map_map,
          List.flatten_cons]
        have hcomp : (l ∘ Nat.succ) = fun i => l (i + 1) := rfl
        rw [hcomp]
        simp [List.append_assoc]
      · show page :: ((List.range (n + 1)).map fun i => page + 1 + i)
          = (List.range (n + 1 + 1)).map fun i => page + i
        conv_rhs => rw [List.range_succ_eq_map, List.map_cons, List.map_map]
        have hcomp : ((fun i => page + i) ∘ Nat.succ) = fun i => page + 1 + i := by
          funext i
          show page + (i + 1) = page + 1 + i
          omega
        rw [hcomp]
        rfl

/-! Claim C2: pagination order and termination. -/

/-- C2: the loop requests pages 1, 2, ... in strictly increasing order and
stops the first time a page holds fewer than 250 products (an empty page
included), returning the concatenation of every fetched batch. -/
theorem fetch_pagination (pages : Nat → Page) (n : Nat) (l : Nat → List JVal)
    (last : List JVal) (fuel : Nat)
    (hfull : ∀ i, i < n → pages (i + 1) = Page.ok (l i))
    (hlen : ∀ i, i < n → (l i).length = 250)
    (hlast : pages (n + 1) = Page.ok last) (hshort : last.length < 250)
    (hfuel : n < fuel) :
    fetch_products pages fuel =
      (((List.range n).map l).flatten ++ last,
       (List.range (n + 1)).map (fun i => i + 1)) := by
  have hstop : stopItems (pages (1 + n)) = some last := by
    rw [Nat.add_comm 1 n, hlast]
    simp only [stopItems]
    by_cases hemp : last.isEmpty
    · have he : last = [] := by
        cases last with
        | nil => rfl
        | cons a t => simp [List.isEmpty] at hemp
      rw [if_pos hemp, he]
    · rw [if_neg hemp, if_pos hshort]
  have h := fetchGo_run n l 1 fuel [] pages last
    (by intro i hi; rw [Nat.add_comm 1 i]; exact hfull i hi)
    hlen hstop hfuel
  unfold fetch_products
  rw [h, Prod.mk.injEq]
  constructor
  · simp
  · show (List.range (n + 1)).map (fun i => 1 + i)
      = (List.range (n + 1)).map fun i => i + 1
    have hcomp : (fun i => 1 + i) = fun i => i + 1 := by funext i; omega
    rw [hcomp]

set_option maxRecDepth 40000 in
/-- Witness for C2 at the spec example: pages of sizes 250, 250, 120 give
exactly 3 requests (pages 1, 2, 3) and 620 products. -/
theorem fetch_pagination_witness :
    (∀ i, i < 2 → pagesEx (i + 1) = Page.ok (lEx i)) ∧
    (∀ i, i < 2 → (lEx i).length = 250) ∧
    pagesEx 3 = Page.ok (List.replicate 120 (JVal.jobj [])) ∧
    (List.replicate 120 (JVal.jobj [])).length < 250 ∧
    (fetch_products pagesEx 3).1.length = 620 ∧
    (fetch_products pagesEx 3).2 = [1, 2, 3] := by
  have hfull : ∀ i, i < 2 → pagesEx (i + 1) = Page.ok (lEx i) := by
    intro i hi
    interval_cases i <;> rfl
  have hlen : ∀ i, i < 2 → (lEx i).length = 250 := by
    intro i hi
    show (List.replicate 250 (JVal.jobj [])).length = 250
    rw [List.length_replicate]
  have hlast : pagesEx 3 = Page.ok (List.replicate 120 (JVal.jobj [])) := rfl
  have hshort : (List.replicate 120 (JVal.jobj [])).length < 250 := by
    rw [List.length_replicate]; omega
  have h := fetch_pagination pagesEx 2 lEx (List.replicate 120 (JVal.jobj []))
    3 hfull hlen hlast hshort (by omega)
  refine ⟨hfull, hlen, hlast, hshort, ?_, ?_⟩
  · rw [h]
    decide
  · rw [h]
    rfl

/-! Claim C8: a failing page ends the session with the partial result. -/

/-- C8: when pages 1..n succeed with full batches and the request for page
n+1 fails (network error, bad status, decode failure or invalid format), the
loop breaks without retrying: every page was requested once and the products
of the successful pages are returned. -/
theorem fetch_error_returns_partial (pages : Nat → Page) (n : Nat)
    (l : Nat → List JVal) (fuel : Nat)
    (hfull : ∀ i, i < n → pages (i + 1) = Page.ok (l i))
    (hlen : ∀ i, i < n → (l i).length = 250)
    (herr : pageFails (pages (n + 1)) = true)
    (hfuel : n < fuel) :
    fetch_products pages fuel =
      (((List.range n).map l).flatten,
       (List.range (n + 1)).map (fun i => i + 1)) := by
  have hstop : stopItems (pages (1 + n)) = some [] := by
    rw [Nat.add_comm 1 n]
    cases hp : pages (n + 1) with
    | ok items => rw [hp] at herr; simp [pageFails] at herr
    | badFormat => rfl
    | netErr => rfl
    | decodeErr => rfl
  have h := fetchGo_run n l 1 fuel [] pages []
    (by intro i hi; rw [Nat.add_comm 1 i]; exact hfull i hi)
    hlen hstop hfuel
  unfold fetch_products
  rw [h, Prod.mk.injEq]
  constructor
  · simp
  · show (List.range (n + 1)).map (fun i => 1 + i)
      = (List.range (n + 1)).map fun i => i + 1
    have hcomp : (fun i => 1 + i) = fun i => i + 1 := by funext i; omega
    rw [hcomp]

/-- Witness for C8: a network error on the very first page gives one request
and the empty product list. -/
theorem fetch_error_returns_partial_witness :
    pageFails ((fun _ => Page.netErr) (0 + 1)) = true ∧
    fetch_products (fun _ => Page.netErr) 1 = ([], [1]) := by
  have h := fetch_error_returns_partial (fun _ => Page.netErr) 0
    (fun _ => []) 1 (by intro i hi; omega) (by intro i hi; omega) rfl
    (by omega)
  exact ⟨rfl, by rw [h]; rfl⟩

/-! The flattener: claims C1 and C9. -/

theorem truthy_iter_ne_nil (v : JVal) (l : List JVal)
    (ht : truthy v = true) (hi : pyIter v = Except.ok l) : l ≠ [] := by
  cases v with
  | jnull => simp [truthy] at ht
  | jbool b => simp [pyIter] at hi
  | jnum n => simp [pyIter] at hi
  | jarr xs =>
    simp only [pyIter] at hi
    injection hi with he
    subst he
    cases xs with
    | nil => simp [truthy] at ht
    | cons a t => exact List.cons_ne_nil a t
  | jstr s =>
    simp only [pyIter] at hi
    injection hi with he
    subst he
    intro hl
    have hnil : s.toList = [] := by simpa using hl
    have hse : s = "" := by
      cases s with
      | mk data =>
        simp only [String.toList] at hnil
        subst hnil
        rfl
    rw [hse] at ht
    simp [truthy] at ht
  | jobj gs =>
    simp only [pyIter] at hi
    injection hi with he
    subst he
    intro hl
    have hnil : gs = [] := by simpa using hl
    rw [hnil] at ht
    simp [truthy] at ht

theorem processVariants_ok (sd : String) (fs : List (String × JVal)) (fis : JVal)
    (ais tg : String) :
    ∀ (vs : List JVal) (rows : List Row),
      processVariants sd fs fis ais tg vs = (rows, true) →
      rows.length = vs.length ∧
      ∀ i (hv : i < vs.length) (hr : i < rows.length),
        ∃ vf, vs.get ⟨i, hv⟩ = JVal.jobj vf ∧
          rows.get ⟨i, hr⟩ = mkVariantRowOf sd fs fis ais tg vf := by
  intro vs
  induction vs with
  | nil =>
    intro rows h
    simp only [processVariants] at h
    injection h with h1 h2
    subst h1
    exact ⟨rfl, fun i hv hr => absurd hv (Nat.not_lt_zero i)⟩
  | cons v vs ih =>
    intro rows h
    simp only [processVariants] at h
    cases hm : mkVariantRow sd fs fis ais tg v with
    | error e =>
      rw [hm] at h
      simp at h
    | ok r =>
      rw [hm] at h
      injection h with h1 h2
      have hrec : processVariants sd fs fis ais tg vs
          = ((processVariants sd fs fis ais tg vs).1, true) := by
        rw [← h2]
      obtain ⟨hlen, hidx⟩ := ih _ hrec
      cases v with
      | jobj vf =>
        have hr2 : r = mkVariantRowOf sd fs fis ais tg vf := by
          simp only [mkVariantRow] at hm
          injection hm with he
          exact he.symm
        subst h1
        refine ⟨by simp [hlen], ?_⟩
        intro i hv hr
        cases i with
        | zero => exact ⟨vf, rfl, hr2⟩
        | succ j =>
          have hv2 : j < vs.length := by
            simpa using hv
          have hr3 : j < (processVariants sd fs fis ais tg vs).1.length := by
            rw [hlen]
            exact hv2
          obtain ⟨vf2, hvf2, hrowf⟩ := hidx j hv2 hr3
          exact ⟨vf2, hvf2, hrowf⟩
      | jnull => simp [mkVariantRow] at hm
      | jbool b => simp [mkVariantRow] at hm
      | jnum n => simp [mkVariantRow] at hm
      | jstr s => simp [mkVariantRow] at hm
      | jarr xs => simp [mkVariantRow] at hm

theorem productFieldsOk_mkVariantRowOf (sd : String) (fs : List (String × JVal))
    (fis : JVal) (ais tg : String) (vf : List (String × JVal))
    (h1 : firstImageSrc fs = Except.ok fis)
    (h2 : allImageSrcs fs = Except.ok ais)
    (h3 : pyJoin ", " (ogetD fs "tags" (JVal.jarr [])) = Except.ok tg) :
    productFieldsOk sd fs (mkVariantRowOf sd fs fis ais tg vf) :=
  ⟨rfl, rfl, rfl, rfl, rfl, rfl, rfl, rfl, rfl, h3, rfl, h1, h2⟩

theorem variantFieldsOk_mkVariantRowOf (sd : String) (fs : List (String × JVal))
    (fis : JVal) (ais tg : String) (vf : List (String × JVal)) :
    variantFieldsOk vf (mkVariantRowOf sd fs fis ais tg vf) :=
  ⟨rfl, rfl, rfl, rfl, rfl, rfl, rfl, rfl⟩

theorem processProduct_true_pos (sd : String) (p : JVal)
    (h : (processProduct sd p).2 = true) :
    0 < (processProduct sd p).1.length := by
  cases p with
  | jobj fs =>
    simp only [processProduct] at h ⊢
    cases h1 : firstImageSrc fs with
    | error e => rw [h1] at h; simp at h
    | ok fis =>
      cases h2 : allImageSrcs fs with
      | error e => rw [h1, h2] at h; simp at h
      | ok ais =>
        cases h3 : pyJoin ", " (ogetD fs "tags" (JVal.jarr [])) with
        | error e => rw [h1, h2, h3] at h; simp at h
        | ok tg =>
          simp only [h1, h2, h3] at h ⊢
          by_cases ht : truthy (oget fs "variants") = true
          · simp only [ht, eq_self_iff_true, if_true] at h ⊢
            cases hit : pyIter (ogetD fs "variants" (JVal.jarr [])) with
            | error e => rw [hit] at h; simp at h
            | ok vs =>
              simp only [hit] at h ⊢
              have hrec : processVariants sd fs fis ais tg vs
                  = ((processVariants sd fs fis ais tg vs).1, true) := by
                rw [← h]
              obtain ⟨hlen, -⟩ :=
                processVariants_ok sd fs fis ais tg vs _ hrec
              have hne : oget fs "variants" ≠ JVal.jnull := by
                intro he
                rw [he] at ht
                simp [truthy] at ht
              rw [ogetD_eq_oget fs "variants" _ hne] at hit
              have hvne := truthy_iter_ne_nil (oget fs "variants") vs ht hit
              rw [hlen]
              cases vs with
              | nil => exact absurd rfl hvne
              | cons a t => simp
          · have hf : truthy (oget fs "variants") = false := by
              cases hq : truthy (oget fs "variants") with
              | false => rfl
              | true => exact absurd hq ht
            simp only [hf, Bool.false_eq_true, if_false] at h ⊢
            simp
  | jnull => simp [processProduct] at h
  | jbool b => simp [processProduct] at h
  | jnum n => simp [processProduct] at h
  | jstr s => simp [processProduct] at h
  | jarr xs => simp [processProduct] at h

/-- C1: for every product that flattens without an exception, a product with
k (at least 1) variants yields exactly k rows in original variant order, all
sharing the product-level fields and each carrying the fields of its own
variant; a product with zero (untruthy) variants yields exactly one row with
every variant-specific field None; and across a batch the number of rows is
at least the number of successfully processed products. -/
theorem flatten_rows_per_product (sd : String) :
    (∀ (fs : List (String × JVal)) (vs : List JVal) (rows : List Row),
      oget fs "variants" = JVal.jarr vs → vs ≠ [] →
      processProduct sd (JVal.jobj fs) = (rows, true) →
      rows.length = vs.length ∧
      (∀ r, r ∈ rows → productFieldsOk sd fs r) ∧
      (∀ i (hv : i < vs.length) (hr : i < rows.length),
        ∃ vf, vs.get ⟨i, hv⟩ = JVal.jobj vf ∧
          variantFieldsOk vf (rows.get ⟨i, hr⟩))) ∧
    (∀ (fs : List (String × JVal)) (rows : List Row),
      truthy (oget fs "variants") = false →
      processProduct sd (JVal.jobj fs) = (rows, true) →
      rows.length = 1 ∧
      (∀ r, r ∈ rows → productFieldsOk sd fs r ∧ variantFieldsAbsent r)) ∧
    (∀ ps : List JVal,
      ps.countP (fun p => (processProduct sd p).2) ≤ (flatten_data ps sd).length) := by
  refine ⟨?_, ?_, ?_⟩
  · intro fs vs rows hvar hne hp
    simp only [processProduct] at hp
    cases h1 : firstImageSrc fs with
    | error e => rw [h1] at hp; simp at hp
    | ok fis =>
      cases h2 : allImageSrcs fs with
      | error e => rw [h1, h2] at hp; simp at hp
      | ok ais =>
        cases h3 : pyJoin ", " (ogetD fs "tags" (JVal.jarr [])) with
        | error e => rw [h1, h2, h3] at hp; simp at hp
        | ok tg =>
          have ht : truthy (oget fs "variants") = true := by
            rw [hvar]
            cases vs with
            | nil => exact absurd rfl hne
            | cons a t => rfl
          have hogetD : ogetD fs "variants" (JVal.jarr []) = JVal.jarr vs := by
            rw [ogetD_eq_oget fs "variants" _ (by rw [hvar]; intro he; cases he),
              hvar]
          simp only [h1, h2, h3, ht, eq_self_iff_true, if_true, hogetD,
            pyIter] at hp
          obtain ⟨hlen, hidx⟩ := processVariants_ok sd fs fis ais tg vs rows hp
          refine ⟨hlen, ?_, ?_⟩
          · intro r hr
            obtain ⟨⟨i, hi⟩, hget⟩ := List.mem_iff_get.mp hr
            obtain ⟨vf, -, hrow⟩ := hidx i (by rw [← hlen]; exact hi) hi
            rw [← hget, hrow]
            exact productFieldsOk_mkVariantRowOf sd fs fis ais tg vf h1 h2 h3
          · intro i hv hr
            obtain ⟨vf, hvf, hrow⟩ := hidx i hv hr
            rw [hrow]
            exact ⟨vf, hvf, variantFieldsOk_mkVariantRowOf sd fs fis ais tg vf⟩
  · intro fs rows ht hp
    simp only [processProduct] at hp
    cases h1 : firstImageSrc fs with
    | error e => rw [h1] at hp; simp at hp
    | ok fis =>
      cases h2 : allImageSrcs fs with
      | error e => rw [h1, h2] at hp; simp at hp
      | ok ais =>
        cases h3 : pyJoin ", " (ogetD fs "tags" (JVal.jarr [])) with
        | error e => rw [h1, h2, h3] at hp; simp at hp
        | ok tg =>
          simp only [h1, h2, h3, ht, Bool.false_eq_true, if_false] at hp
          injection hp with hrows hb
          subst hrows
          refine ⟨rfl, ?_⟩
          intro r hr
          have hre : r = mkBaseRow sd fs fis ais tg := by
            cases hr with
            | head => rfl
            | tail _ h => cases h
          subst hre
          exact ⟨⟨rfl, rfl, rfl, rfl, rfl, rfl, rfl, rfl, rfl, h3, rfl, h1, h2⟩,
            ⟨rfl, rfl, rfl, rfl, rfl, rfl, rfl, rfl⟩⟩
  · intro ps
    induction ps with
    | nil => simp [flatten_data]
    | cons p rest ih =>
      rw [flatten_data]
      rw [List.countP_cons, List.length_append]
      by_cases hs : (processProduct sd p).2 = true
      · have hpos := processProduct_true_pos sd p hs
        simp only [hs, if_pos]
        omega
      · have hb : (processProduct sd p).2 = false := by
          cases hbb : (processProduct sd p).2 with
          | false => rfl
          | true => exact absurd hbb hs
        rw [hb]
        simp only [Bool.false_eq_true, if_false]
        omega

/-- Witness for C1 at a concrete two-variant product and a one-product
batch. -/
theorem flatten_rows_per_product_witness :
    oget prodTwoVar "variants" = JVal.jarr varsTwo ∧
    varsTwo ≠ [] ∧
    processProduct "store" (JVal.jobj prodTwoVar) = (rowsTwoVar, true) ∧
    rowsTwoVar.length = varsTwo.length ∧
    List.countP (fun p => (processProduct "store" p).2) [JVal.jobj prodTwoVar]
      ≤ (flatten_data [JVal.jobj prodTwoVar] "store").length := by
  have hne : varsTwo ≠ [] := by
    rw [show varsTwo = JVal.jobj [("id", JVal.jnum 1)]
        :: [JVal.jobj [("id", JVal.jnum 2)]] from rfl]
    exact List.cons_ne_nil _ _
  have h := flatten_rows_per_product "store"
  have h1 := h.1 prodTwoVar varsTwo rowsTwoVar rfl hne rfl
  exact ⟨rfl, hne, rfl, h1.1, h.2.2 [JVal.jobj prodTwoVar]⟩

/-- C9 counterexample: in the spec example of five products where the third
lacks an id field, no product is skipped: product.get of a missing id
returns None instead of raising, so flatten_data yields five rows, the third
carrying a null product_id and the title of product three. -/
theorem flatten_missing_id_not_skipped :
    (flatten_data badBatchC9 "store").length = 5 ∧
    ((flatten_data badBatchC9 "store")[2]?).map Row.product_id
      = some JVal.jnull ∧
    ((flatten_data badBatchC9 "store")[2]?).map Row.title
      = some (JVal.jstr "three") :=
  ⟨rfl, rfl, rfl⟩

/-- C9 (amended): flattening isolates per-product failures, where a failure
is a processing step that raises: the rows of every other product in the
batch are still produced, and the raising product contributes exactly the
rows it appended before the exception (none when it raises before its first
row).  A product that merely lacks an id does not raise: it is not skipped
and yields its rows with a null product_id. -/
theorem flatten_isolates_failures (sd : String) (xs ys : List JVal)
    (bad : JVal) (rows : List Row)
    (hb : processProduct sd bad = (rows, false)) :
    flatten_data (xs ++ bad :: ys) sd =
      flatten_data xs sd ++ rows ++ flatten_data ys sd := by
  induction xs with
  | nil => simp [flatten_data, hb]
  | cons x xs ih => simp [flatten_data, ih, List.append_assoc]

/-- Witness for C9 at a batch whose middle product is a bare string, which
raises at product.get: only its rows are missing. -/
theorem flatten_isolates_failures_witness :
    processProduct "store" (JVal.jstr "boom") = ([], false) ∧
    flatten_data ([JVal.jobj [("id", JVal.jnum 1)]]
        ++ JVal.jstr "boom" :: [JVal.jobj [("id", JVal.jnum 2)]]) "store" =
      flatten_data [JVal.jobj [("id", JVal.jnum 1)]] "store" ++ []
        ++ flatten_data [JVal.jobj [("id", JVal.jnum 2)]] "store" :=
  ⟨rfl, flatten_isolates_failures "store" _ _ _ [] rfl⟩

/-! The document sink: claims C3 and C4. -/

theorem beqJValList_refl (xs : List JVal)
    (h : ∀ x ∈ xs, beqJVal x x = true) : beqJValList xs xs = true := by
  induction xs with
  | nil => rfl
  | cons x rest ih =>
    simp only [beqJValList, Bool.and_eq_true]
    exact ⟨h x (List.mem_cons_self x rest),
      ih (fun y hy => h y (List.mem_cons_of_mem x hy))⟩

theorem beqJValFields_refl (gs : List (String × JVal))
    (h : ∀ kv ∈ gs, beqJVal kv.2 kv.2 = true) : beqJValFields gs gs = true := by
  induction gs with
  | nil => rfl
  | cons kv rest ih =>
    obtain ⟨k, v⟩ := kv
    simp only [beqJValFields, Bool.and_eq_true]
    refine ⟨⟨by simp, h (k, v) (List.mem_cons_self _ _)⟩, ?_⟩
    exact ih (fun y hy => h y (List.mem_cons_of_mem _ hy))

theorem beqJVal_refl_aux : ∀ (n : Nat) (v : JVal), sizeOf v ≤ n → beqJVal v v = true := by
  intro n
  induction n with
  | zero =>
    intro v hv
    cases v <;> simp at hv
  | succ n ih =>
    intro v hv
    cases v with
    | jnull => rfl
    | jbool b => simp [beqJVal]
    | jnum m => simp [beqJVal]
    | jstr s => simp [beqJVal]
    | jarr xs =>
      show beqJValList xs xs = true
      refine beqJValList_refl xs ?_
      intro x hx
      apply ih
      have h1 := List.sizeOf_lt_of_mem hx
      have h2 : sizeOf (JVal.jarr xs) = 1 + sizeOf xs := by simp
      omega
    | jobj gs =>
      show beqJValFields gs gs = true
      refine beqJValFields_refl gs ?_
      intro kv hkv
      apply ih
      have h1 := List.sizeOf_lt_of_mem hkv
      have h2 : sizeOf (JVal.jobj gs) = 1 + sizeOf gs := by simp
      have h3 : sizeOf kv.2 < sizeOf kv := by
        obtain ⟨k, v2⟩ := kv
        simp
      omega

theorem beqJVal_refl (v : JVal) : beqJVal v v = true :=
  beqJVal_refl_aux (sizeOf v) v (Nat.le_refl _)

theorem dGet_cons (k1 : String) (v1 : JVal) (rest : Doc) (k : String) :
    dGet ((k1, v1) :: rest) k = if k1 = k then some v1 else dGet rest k := by
  by_cases h : k1 = k
  · simp [dGet, List.find?, h]
  · have hb : (k1 == k) = false := by simpa using h
    simp [dGet, List.find?, hb, h]

theorem dGet_setField (d : Doc) (k : String) (v : JVal) (k2 : String) :
    dGet (setField d k v) k2 = if k2 = k then some v else dGet d k2 := by
  induction d with
  | nil =>
    show dGet [(k, v)] k2 = if k2 = k then some v else dGet [] k2
    rw [dGet_cons]
    by_cases h : k2 = k
    · rw [if_pos (h.symm), if_pos h]
    · rw [if_neg (fun he => h he.symm), if_neg h]
  | cons kv rest ih =>
    obtain ⟨k1, v1⟩ := kv
    show dGet (if k1 == k then (k, v) :: rest else (k1, v1) :: setField rest k v) k2
      = if k2 = k then some v else dGet ((k1, v1) :: rest) k2
    by_cases hk : k1 = k
    · rw [if_pos (by simpa using hk), dGet_cons, dGet_cons]
      by_cases h2 : k2 = k
      · rw [if_pos h2.symm, if_pos h2]
      · rw [if_neg (fun he => h2 he.symm), if_neg h2,
          if_neg (fun he => h2 (hk ▸ he).symm)]
    · rw [if_neg (by simpa using hk), dGet_cons, ih, dGet_cons]
      by_cases h1 : k1 = k2
      · rw [if_pos h1, if_neg (fun he => hk (h1.trans he)), if_pos h1]
      · rw [if_neg h1, if_neg h1]

theorem dGet_none_of_not_mem (d : Doc) (k : String)
    (h : k ∉ d.map Prod.fst) : dGet d k = none := by
  induction d with
  | nil => rfl
  | cons kv rest ih =>
    obtain ⟨k1, v1⟩ := kv
    simp only [List.map_cons, List.mem_cons] at h
    push_neg at h
    rw [dGet_cons, if_neg (fun he => h.1 he.symm), ih h.2]

theorem mem_keys_setField (d : Doc) (k : String) (v : JVal) (x : String)
    (hx : x ∈ (setField d k v).map Prod.fst) : x = k ∨ x ∈ d.map Prod.fst := by
  induction d with
  | nil => simpa [setField] using hx
  | cons kv rest ih =>
    obtain ⟨k1, v1⟩ := kv
    simp only [setField] at hx
    by_cases hk : (k1 == k) = true
    · rw [if_pos hk] at hx
      simp only [List.map_cons, List.mem_cons] at hx ⊢
      rcases hx with rfl | hx
      · exact Or.inl rfl
      · exact Or.inr (Or.inr hx)
    · rw [if_neg hk] at hx
      simp only [List.map_cons, List.mem_cons] at hx ⊢
      rcases hx with rfl | hx
      · exact Or.inr (Or.inl rfl)
      · rcases ih hx with h | h
        · exact Or.inl h
        · exact Or.inr (Or.inr h)

theorem nodup_keys_setField (d : Doc) (k : String) (v : JVal)
    (h : (d.map Prod.fst).Nodup) : ((setField d k v).map Prod.fst).Nodup := by
  induction d with
  | nil => simp [setField]
  | cons kv rest ih =>
    obtain ⟨k1, v1⟩ := kv
    simp only [List.map_cons, List.nodup_cons] at h
    obtain ⟨hk1, hrest⟩ := h
    simp only [setField]
    by_cases hk : (k1 == k) = true
    · rw [if_pos hk]
      have hkk : k1 = k := by simpa using hk
      subst hkk
      simp only [List.map_cons, List.nodup_cons]
      exact ⟨hk1, hrest⟩
    · rw [if_neg hk]
      simp only [List.map_cons, List.nodup_cons]
      refine ⟨?_, ih hrest⟩
      intro hmem
      rcases mem_keys_setField rest k v k1 hmem with h | h
      · exact absurd (by simpa using h) (by simpa using hk)
      · exact hk1 h

theorem dGet_mergeSet (p : Doc) :
    ∀ (d : Doc) (k : String), (p.map Prod.fst).Nodup →
      dGet (mergeSet d p) k =
        match dGet p k with
        | some v => some v
        | none => dGet d k := by
  induction p with
  | nil =>
    intro d k h
    show dGet d k = match (none : Option JVal) with
      | some v => some v
      | none => dGet d k
    rfl
  | cons kv rest ih =>
    intro d k h
    obtain ⟨k1, v1⟩ := kv
    simp only [List.map_cons, List.nodup_cons] at h
    obtain ⟨hk1, hrest⟩ := h
    have hfold : mergeSet d ((k1, v1) :: rest) = mergeSet (setField d k1 v1) rest := rfl
    rw [hfold, ih (setField d k1 v1) k hrest, dGet_cons]
    by_cases hk : k1 = k
    · subst hk
      rw [dGet_none_of_not_mem rest k1 hk1]
      rw [dGet_setField, if_pos rfl]
      simp
    · rw [if_neg hk]
      cases hq : dGet rest k with
      | some w => rfl
      | none => rw [dGet_setField, if_neg (fun he => hk he.symm)]

theorem updateFirst_append_left (p : Doc → Bool) (f : Doc → Doc)
    (xs ys : List Doc) (h : ∀ x ∈ xs, p x = false) :
    updateFirst p f (xs ++ ys) = xs ++ updateFirst p f ys := by
  induction xs with
  | nil => rfl
  | cons x rest ih =>
    simp only [List.cons_append, updateFirst, h x (List.mem_cons_self x rest),
      Bool.false_eq_true, if_false]
    exact congrArg (List.cons x) (ih (fun y hy => h y (List.mem_cons_of_mem x hy)))

theorem dGet_stamped (su : String) (now : JVal) (p : Doc) (k : String) :
    dGet (stamped su now p) k =
      if k = "store_url" then some (JVal.jstr su)
      else if k = "scraped_at" then some now
      else dGet p k := by
  unfold stamped
  rw [dGet_setField]
  by_cases h1 : k = "store_url"
  · rw [if_pos h1, if_pos h1]
  · rw [if_neg h1, if_neg h1, dGet_setField]

/-- C4 (code bug): the unique index connect_to_mongodb creates covers the
field id alone, not the pair (id, store_url): storing the same product id
from a second store makes the upsert insert collide with the id index, so
the second write fails and the two records cannot coexist, although the
upsert filter itself is keyed on the pair. -/
theorem unique_index_on_id_alone :
    uniqueIndexFields = ["id"] ∧
    (store_product_in_mongodb [] "https://a.example" (JVal.jstr "t1") prodX).2
      = true ∧
    (store_product_in_mongodb [] "https://a.example" (JVal.jstr "t1") prodX).1.length
      = 1 ∧
    store_product_in_mongodb
        (store_product_in_mongodb [] "https://a.example" (JVal.jstr "t1") prodX).1
        "https://b.example" (JVal.jstr "t2") prodY
      = ((store_product_in_mongodb [] "https://a.example" (JVal.jstr "t1") prodX).1,
         false) :=
  ⟨rfl, rfl, rfl, rfl⟩

/-- C3 counterexample: with a record of id 1 already stored from another
store, persisting the pair (1, my store) twice stores nothing at all: both
upsert inserts raise DuplicateKeyError on the unique index on id, so the
number of records for that key is 0, not 1. -/
theorem upsert_not_idempotent_counterexample :
    (store_product_in_mongodb collOther "https://my.example" (JVal.jstr "t1")
      prodX).2 = false ∧
    (store_product_in_mongodb
        (store_product_in_mongodb collOther "https://my.example" (JVal.jstr "t1")
          prodX).1
        "https://my.example" (JVal.jstr "t2") prodY).2 = false ∧
    (store_product_in_mongodb
        (store_product_in_mongodb collOther "https://my.example" (JVal.jstr "t1")
          prodX).1
        "https://my.example" (JVal.jstr "t2") prodY).1.countP
      (fun d => keyMatch d (JVal.jnum 1) "https://my.example") = 0 :=
  ⟨rfl, rfl, rfl⟩

/-- C3 (amended): the upsert is idempotent on its key provided the collection
holds no record with the same id (in particular none with the same id under a
different store_url, which the unique index on id alone would make the write
fail): persisting the same (id, store_url) twice, with the same field names,
leaves exactly one record for that key, and every field of that record reads
as in the second write (stamped with its scraped_at and the store_url). -/
theorem upsert_idempotent_without_id_conflict
    (coll : List Doc) (su : String) (n1 n2 : JVal) (p1 p2 : Doc) (pid : JVal)
    (hid1 : dGet p1 "id" = some pid)
    (hid2 : dGet p2 "id" = some pid)
    (hfresh : ∀ d ∈ coll, fieldEq d "id" pid = false)
    (hnodup : (p2.map Prod.fst).Nodup)
    (hkeys : ∀ k, (dGet p1 k).isSome → (dGet p2 k).isSome) :
    (store_product_in_mongodb coll su n1 p1).2 = true ∧
    (store_product_in_mongodb (store_product_in_mongodb coll su n1 p1).1
      su n2 p2).2 = true ∧
    (store_product_in_mongodb (store_product_in_mongodb coll su n1 p1).1
        su n2 p2).1.countP (fun d => keyMatch d pid su) = 1 ∧
    ∃ d, d ∈ (store_product_in_mongodb (store_product_in_mongodb coll su n1 p1).1
        su n2 p2).1 ∧
      keyMatch d pid su = true ∧
      ∀ k, dGet d k = dGet (stamped su n2 p2) k := by
  have hneid1 : ("id" : String) ≠ "store_url" := by decide
  have hneid2 : ("id" : String) ≠ "scraped_at" := by decide
  have hod1 : dGet (stamped su n1 p1) "id" = some pid := by
    rw [dGet_stamped, if_neg hneid1, if_neg hneid2, hid1]
  have hod2 : dGet (stamped su n2 p2) "id" = some pid := by
    rw [dGet_stamped, if_neg hneid1, if_neg hneid2, hid2]
  have hod1su : dGet (stamped su n1 p1) "store_url" = some (JVal.jstr su) := by
    rw [dGet_stamped, if_pos rfl]
  have hod2su : dGet (stamped su n2 p2) "store_url" = some (JVal.jstr su) := by
    rw [dGet_stamped, if_pos rfl]
  have hmatch_coll : ∀ d ∈ coll, keyMatch d pid su = false := by
    intro d hd
    simp [keyMatch, hfresh d hd]
  have hany1 : (coll.any fun d => keyMatch d pid su) = false := by
    simp only [List.any_eq_false]
    intro d hd
    simp [hmatch_coll d hd]
  have hconf1 : insertConflict coll (stamped su n1 p1) = false := by
    simp only [insertConflict, uniqueIndexFields, List.any_eq_false]
    intro d hd
    simp [hod1, hfresh d hd]
  have hw1 : store_product_in_mongodb coll su n1 p1
      = (coll ++ [stamped su n1 p1], true) := by
    simp only [store_product_in_mongodb, hod1, hany1, hconf1,
      Bool.false_eq_true, if_false]
  have hmatch1 : keyMatch (stamped su n1 p1) pid su = true := by
    simp only [keyMatch, fieldEq, hod1, hod1su, Bool.and_eq_true]
    exact ⟨beqJVal_refl pid, beqJVal_refl (JVal.jstr su)⟩
  have hany2 : ((coll ++ [stamped su n1 p1]).any
      fun d => keyMatch d pid su) = true := by
    rw [List.any_eq_true]
    exact ⟨stamped su n1 p1,
      List.mem_append_right _ (List.mem_singleton_self _), hmatch1⟩
  have hupd : updateFirst (fun d => keyMatch d pid su)
      (fun d => mergeSet d (stamped su n2 p2)) (coll ++ [stamped su n1 p1])
      = coll ++ [mergeSet (stamped su n1 p1) (stamped su n2 p2)] := by
    rw [updateFirst_append_left _ _ _ _ hmatch_coll]
    simp [updateFirst, hmatch1]
  have hw2 : store_product_in_mongodb (coll ++ [stamped su n1 p1]) su n2 p2
      = (coll ++ [mergeSet (stamped su n1 p1) (stamped su n2 p2)], true) := by
    simp only [store_product_in_mongodb, hod2, hany2, eq_self_iff_true,
      if_true, hupd]
  have hnod2 : ((stamped su n2 p2).map Prod.fst).Nodup :=
    nodup_keys_setField _ _ _ (nodup_keys_setField _ _ _ hnodup)
  have hmget : ∀ k, dGet (mergeSet (stamped su n1 p1) (stamped su n2 p2)) k
      = match dGet (stamped su n2 p2) k with
        | some v => some v
        | none => dGet (stamped su n1 p1) k :=
    fun k => dGet_mergeSet (stamped su n2 p2) (stamped su n1 p1) k hnod2
  have hkeys2 : ∀ k, (dGet (stamped su n1 p1) k).isSome →
      (dGet (stamped su n2 p2) k).isSome := by
    intro k hk
    rw [dGet_stamped] at hk ⊢
    by_cases h1 : k = "store_url"
    · simp [h1]
    · rw [if_neg h1] at hk ⊢
      by_cases h2 : k = "scraped_at"
      · simp [h2]
      · rw [if_neg h2] at hk ⊢
        exact hkeys k hk
  have hmk : ∀ k, dGet (mergeSet (stamped su n1 p1) (stamped su n2 p2)) k
      = dGet (stamped su n2 p2) k := by
    intro k
    rw [hmget k]
    cases hq : dGet (stamped su n2 p2) k with
    | some v => rfl
    | none =>
      cases hp1q : dGet (stamped su n1 p1) k with
      | none => rfl
      | some w =>
        have hs := hkeys2 k (by rw [hp1q]; rfl)
        rw [hq] at hs
        simp at hs
  have hmid : dGet (mergeSet (stamped su n1 p1) (stamped su n2 p2)) "id"
      = some pid := by rw [hmk, hod2]
  have hmsu : dGet (mergeSet (stamped su n1 p1) (stamped su n2 p2)) "store_url"
      = some (JVal.jstr su) := by rw [hmk, hod2su]
  have hmatchm : keyMatch (mergeSet (stamped su n1 p1) (stamped su n2 p2))
      pid su = true := by
    simp only [keyMatch, fieldEq, hmid, hmsu, Bool.and_eq_true]
    exact ⟨beqJVal_refl pid, beqJVal_refl (JVal.jstr su)⟩
  have hcnt : (coll ++ [mergeSet (stamped su n1 p1) (stamped su n2 p2)]).countP
      (fun d => keyMatch d pid su) = 1 := by
    rw [List.countP_append]
    have hc0 : coll.countP (fun d => keyMatch d pid su) = 0 := by
      rw [List.countP_eq_zero]
      intro d hd
      simp [hmatch_coll d hd]
    rw [hc0]
    simp [List.countP_cons, hmatchm]
  refine ⟨?_, ?_, ?_, ?_⟩
  · rw [hw1]
  · rw [hw1, hw2]
  · rw [hw1, hw2]
    exact hcnt
  · rw [hw1, hw2]
    exact ⟨mergeSet (stamped su n1 p1) (stamped su n2 p2),
      List.mem_append_right _ (List.mem_singleton_self _), hmatchm, hmk⟩

/-- Witness for the amended C3 on the empty collection: two writes of the
pair (1, my store) leave exactly one record carrying the second write. -/
theorem upsert_idempotent_without_id_conflict_witness :
    dGet prodX "id" = some (JVal.jnum 1) ∧
    dGet prodY "id" = some (JVal.jnum 1) ∧
    (∀ d ∈ ([] : List Doc), fieldEq d "id" (JVal.jnum 1) = false) ∧
    (prodY.map Prod.fst).Nodup ∧
    (∀ k, (dGet prodX k).isSome → (dGet prodY k).isSome) ∧
    (store_product_in_mongodb (store_product_in_mongodb [] "https://my.example"
        (JVal.jstr "t1") prodX).1 "https://my.example" (JVal.jstr "t2")
        prodY).1.countP
      (fun d => keyMatch d (JVal.jnum 1) "https://my.example") = 1 := by
  have hid1 : dGet prodX "id" = some (JVal.jnum 1) := rfl
  have hid2 : dGet prodY "id" = some (JVal.jnum 1) := rfl
  have hfresh : ∀ d ∈ ([] : List Doc), fieldEq d "id" (JVal.jnum 1) = false := by
    intro d hd
    cases hd
  have hnodup : (prodY.map Prod.fst).Nodup := by
    rw [show prodY.map Prod.fst = ["id", "title"] from rfl]
    simp
  have hkeys : ∀ k, (dGet prodX k).isSome → (dGet prodY k).isSome := by
    intro k hk
    by_cases h1 : k = "id"
    · subst h1; rfl
    · by_cases h2 : k = "title"
      · subst h2; rfl
      · exfalso
        rw [show dGet prodX k = if "id" = k then some (JVal.jnum 1)
            else if "title" = k then some (JVal.jstr "x") else none from by
          rw [show prodX = ("id", JVal.jnum 1) :: [("title", JVal.jstr "x")]
              from rfl, dGet_cons, dGet_cons]
          rfl] at hk
        rw [if_neg (fun he => h1 he.symm), if_neg (fun he => h2 he.symm)] at hk
        simp at hk
  have h := upsert_idempotent_without_id_conflict [] "https://my.example"
    (JVal.jstr "t1") (JVal.jstr "t2") prodX prodY (JVal.jnum 1)
    hid1 hid2 hfresh hnodup hkeys
  exact ⟨hid1, hid2, hfresh, hnodup, hkeys, h.2.2.1⟩

end ScraperAgents
